import Mathlib

/-!
# Verification of the ETF backtest simulation engine

Shallow embedding of the portfolio simulation and rebalancing-trigger code
of the `investment_research` repository (`src/etf_reblance/`), over exact
rationals.  Asset keys of the Python `portfolio_config` dict become indices
`Fin n`; a `shares_dict`/`prices_dict` column at one date index becomes a
function `Fin n → ℚ`.  Money and prices are `ℚ`; dates are day numbers `ℤ`
(pandas timestamps ordered by `≤`, `timedelta(days = k)` is `+ k`).

Floating point is modelled by exact rational arithmetic except where a
claim is precisely about IEEE special values (division by zero, NaN from
an empty standard deviation); there a small `FloatRes` type records
finite / ±infinity / NaN outcomes.
-/

namespace InvestmentResearch

/-- Outcome of a float computation: a finite (rational) value, `+inf`,
`-inf`, or NaN.  Used only where a claim is about the special values. -/
inductive FloatRes where
  | fin (q : ℚ)
  | posInf
  | negInf
  | nan
deriving DecidableEq, Repr

/-- numpy float64 division `a / b` on finite inputs: division by zero
produces a signed infinity (or NaN for `0/0`) with only a RuntimeWarning,
never an exception. -/
def npDiv (a b : ℚ) : FloatRes :=
  if b = 0 then
    if a = 0 then .nan else if 0 < a then .posInf else .negInf
  else .fin (a / b)

/-- `backtest_threshold_rebalance.py` line 215 (and
`backtest_40_nasdaq_15pct.py` line 203):
`shares_dict[key][0] = (initial_invest * weight) / initial_price`,
with numpy float division semantics kept, to examine what the code does
on a non-positive price (there is no validation branch anywhere in
`run_backtest`: the function's control flow cannot abort on a bad price). -/
def initialSharesF (initialInvest weight price : ℚ) : FloatRes :=
  npDiv (initialInvest * weight) price

/-- Total portfolio market value at one date index:
the accumulation loop `for key: total_value += shares_dict[key][i] * prices_dict[key][i]`
(`backtest_threshold_rebalance.py` lines 120-125 and 163-166). -/
def totalValue {n : ℕ} (shares prices : Fin n → ℚ) : ℚ :=
  (List.ofFn (fun a => shares a * prices a)).sum

/-- Current value weight of one asset: `asset_values[key] / total_value`
(`backtest_threshold_rebalance.py` line 130). -/
def currentWeight {n : ℕ} (shares prices : Fin n → ℚ) (a : Fin n) : ℚ :=
  shares a * prices a / totalValue shares prices

/-- `ETFBacktestThresholdRebalance.check_rebalance_needed`
(`backtest_threshold_rebalance.py` lines 107-149): the returned Bool is
`True` iff the `triggers` list is non-empty, i.e. iff some asset's
deviation `abs(current_weight - target_weight)` strictly exceeds the fixed
threshold. -/
def check_rebalance_needed {n : ℕ} (weights : Fin n → ℚ) (threshold : ℚ)
    (shares prices : Fin n → ℚ) : Bool :=
  (List.finRange n).any (fun a =>
    decide (threshold < |currentWeight shares prices a - weights a|))

/-- `ETFBacktest40Nasdaq15pct.check_rebalance_needed`
(`backtest_40_nasdaq_15pct.py` lines 116-153): per-asset absolute
threshold `abs_threshold = target_weight * relative_threshold`; trigger
iff some asset's deviation strictly exceeds its own threshold. -/
def check_rebalance_needed_rel {n : ℕ} (weights : Fin n → ℚ) (ratio : ℚ)
    (shares prices : Fin n → ℚ) : Bool :=
  (List.finRange n).any (fun a =>
    decide (weights a * ratio < |currentWeight shares prices a - weights a|))

/-- `rebalance_portfolio` (`backtest_threshold_rebalance.py` lines 151-174,
identical in `backtest_40_nasdaq_15pct.py` lines 155-169): recompute the
pre-rebalance total value, then
`new_shares[key] = (total_value * weight) / price[key]`; returns the new
shares together with that total value. -/
def rebalance_portfolio {n : ℕ} (weights : Fin n → ℚ)
    (shares prices : Fin n → ℚ) : (Fin n → ℚ) × ℚ :=
  (fun a => totalValue shares prices * weights a / prices a,
   totalValue shares prices)

/-- Input of one run of `ETFBacktestThresholdRebalance.run_backtest`
(`backtest_threshold_rebalance.py` lines 176-276) after `align_dates`:
`n` assets with their `portfolio_config` target weights, the strategy
parameters of `__init__`, and the aligned common date sequence
(`numDates` day numbers via `date`) with each asset's `Close` column
(`price a i` = close of asset `a` on the `i`-th common date). -/
structure Backtest (n : ℕ) where
  weights : Fin n → ℚ
  initial_capital : ℚ
  initial_investment_ratio : ℚ
  regular_investment_years : ℤ
  rebalance_threshold : ℚ
  numDates : ℕ
  date : ℕ → ℤ
  price : Fin n → ℕ → ℚ

namespace Backtest

variable {n : ℕ}

/-- `initial_invest = self.initial_capital * self.initial_investment_ratio`
(line 189). -/
def initial_invest (b : Backtest n) : ℚ :=
  b.initial_capital * b.initial_investment_ratio

/-- `remaining = self.initial_capital - initial_invest` (line 190). -/
def remaining (b : Backtest n) : ℚ :=
  b.initial_capital - b.initial_invest

/-- `regular_invest_end = dates[0] + timedelta(days=self.regular_investment_years * 365)`
(line 193). -/
def regular_invest_end (b : Backtest n) : ℤ :=
  b.date 0 + b.regular_investment_years * 365

/-- `len(regular_invest_dates)` where
`regular_invest_dates = dates[dates <= regular_invest_end]` (line 194):
the number of common dates not after the window end.  Note that the first
common date `dates[0]` is always one of them. -/
def regular_invest_count (b : Backtest n) : ℕ :=
  ((List.range b.numDates).filter
    (fun i => decide (b.date i ≤ b.regular_invest_end))).length

/-- `daily_invest = remaining / len(regular_invest_dates) if len(...) > 0 else 0`
(line 195). -/
def daily_invest (b : Backtest n) : ℚ :=
  if 0 < b.regular_invest_count then b.remaining / b.regular_invest_count else 0

/-- The `shares_dict` arrays of `run_backtest`, filled by the single
forward pass of lines 209-252: `shares b i a` is `shares_dict[a][i]`.
- index 0: `shares_dict[key][0] = (initial_invest * weight) / initial_price`
  (line 215);
- within the contribution window (`dates[i] <= regular_invest_end`, line 223):
  `shares_dict[key][i] = shares_dict[key][i-1] + (daily_invest * weight) / price`
  (lines 224-227);
- after the window (lines 230-246): first copy the previous day's shares,
  then if `check_rebalance_needed` fires replace them by the
  `rebalance_portfolio` allocation, else keep the copy. -/
def shares (b : Backtest n) : ℕ → Fin n → ℚ
  | 0 => fun a => b.initial_invest * b.weights a / b.price a 0
  | i + 1 =>
    let prev := b.shares i
    if b.date (i + 1) ≤ b.regular_invest_end then
      fun a => prev a + b.daily_invest * b.weights a / b.price a (i + 1)
    else if check_rebalance_needed b.weights b.rebalance_threshold
        prev (fun a => b.price a (i + 1)) then
      (rebalance_portfolio b.weights prev (fun a => b.price a (i + 1))).1
    else prev

/-- The `cumulative_invest` series of `run_backtest` (lines 267-273):
starts at `initial_invest`, adds `daily_invest` on every later date inside
the contribution window, then stays constant. -/
def cumulative_invest (b : Backtest n) : ℕ → ℚ
  | 0 => b.initial_invest
  | i + 1 =>
    if b.date (i + 1) ≤ b.regular_invest_end then
      b.cumulative_invest i + b.daily_invest
    else
      b.cumulative_invest i

end Backtest

/-! ## Metrics Calculator (`calculate_sortino.py`, `generate_html_report.py`,
`generate_report` methods) -/

/-- Helper for `runningMax`: running maxima of the remaining values, the
maximum so far being `m`. -/
def runningMaxFrom (m : ℚ) : List ℚ → List ℚ
  | [] => []
  | v :: vs => max m v :: runningMaxFrom (max m v) vs

/-- `rolling_max = df['total_value'].expanding().max()`
(`calculate_sortino.py` line 25, `backtest_threshold_rebalance.py` line 343):
element `i` is the maximum of the values at indices `0..i`. -/
def runningMax : List ℚ → List ℚ
  | [] => []
  | v :: vs => v :: runningMaxFrom v vs

/-- `drawdown = (df['total_value'] - rolling_max) / rolling_max * 100`
(`calculate_sortino.py` line 26), element by element. -/
def drawdownSeries (vs : List ℚ) : List ℚ :=
  (vs.zip (runningMax vs)).map (fun p => (p.1 - p.2) / p.2 * 100)

/-- `max_drawdown = drawdown.min()` (`calculate_sortino.py` line 27);
`none` on an empty series, where pandas would return NaN. -/
def maxDrawdown (vs : List ℚ) : Option ℚ :=
  (drawdownSeries vs).min?

/-- `daily_returns = df['total_value'].pct_change().dropna()`
(`calculate_sortino.py` line 30): consecutive ratios minus one, the
undefined first element dropped. -/
def pctChange (vs : List ℚ) : List ℚ :=
  List.zipWith (fun prev cur => cur / prev - 1) vs vs.tail

/-- pandas `Series.std()` (sample standard deviation, `ddof=1`): NaN
(modelled as `none`) when the series has fewer than two observations.
On at least two observations the code takes the square root of the sample
variance; the square root being irrational in general, the returned
rational is the sample variance `(Σ (x - mean)²) / (len - 1)` standing in
for its square root — every claim below uses only whether the result is
NaN, not its finite value. -/
def seriesStd (xs : List ℚ) : Option ℚ :=
  if xs.length ≤ 1 then none
  else
    let mean := xs.sum / xs.length
    some ((xs.map (fun x => (x - mean) ^ 2)).sum / (xs.length - 1))

/-- The Sortino computation of `calculate_all_metrics`
(`calculate_sortino.py` lines 39-46) and of `calculate_metrics`
(`generate_html_report.py` lines 53-59):
`downside_returns = daily_returns[daily_returns < 0]`; if that series is
non-empty, `sortino = (annualized_return/100 - risk_free_rate) / (downside_std/100)`
with `downside_std = downside_returns.std() * sqrt(252) * 100`; otherwise
`sortino_ratio = float('inf')`.  `annualizedReturn` is the
`annualized_return` float computed upstream (line 22), passed in as a
rational. -/
def sortino_guarded (annualizedReturn riskFreeRate : ℚ)
    (dailyReturns : List ℚ) : FloatRes :=
  let downside := dailyReturns.filter (fun r => decide (r < 0))
  if 0 < downside.length then
    match seriesStd downside with
    | none => .nan
    | some s => .fin ((annualizedReturn / 100 - riskFreeRate) / (s / 100))
  else .posInf

/-- The Sortino computation of `ETFBacktest40Nasdaq15pct.generate_report`
(`backtest_40_nasdaq_15pct.py` lines 324-326): identical formula but with
NO guard on an empty downside series —
`downside_std = daily_returns[daily_returns < 0].std() * sqrt(252) * 100;`
`sortino_ratio = (annualized_return/100 - 0.03) / (downside_std/100)`.
pandas `.std()` of an empty selection is NaN, and NaN propagates through
the divisions. -/
def sortino_unguarded (annualizedReturn riskFreeRate : ℚ)
    (dailyReturns : List ℚ) : FloatRes :=
  let downside := dailyReturns.filter (fun r => decide (r < 0))
  match seriesStd downside with
  | none => .nan
  | some s => .fin ((annualizedReturn / 100 - riskFreeRate) / (s / 100))

/-! ## Date Aligner (`align_dates`, `backtest_threshold_rebalance.py`
lines 88-105 and `backtest_40_nasdaq_15pct.py` lines 97-114) -/

/-- Date-indexed lookup in one asset's price table (`df.loc[d]` on a
unique date index): the value at the first matching date. -/
def lookupDate (series : List (ℤ × ℚ)) (d : ℤ) : Option ℚ :=
  match series with
  | [] => none
  | (d', p) :: rest => if d' = d then some p else lookupDate rest d

/-- `self.data[key] = self.data[key].loc[common_dates].sort_index()`
(line 102): reindex one asset's table by the common date sequence. -/
def reindexTo (series : List (ℤ × ℚ)) (ds : List ℤ) : List (ℤ × ℚ) :=
  ds.filterMap (fun d => (lookupDate series d).map (fun p => (d, p)))

/-- `align_dates` (lines 88-105): intersect every asset's date index
(starting from the first asset's), sort the intersection ascending, and
reindex every asset by it.  The method then prints
`common_dates[0]` / `common_dates[-1]` (line 105), which raises an
IndexError when the intersection is empty — modelled by `none`: the run
aborts instead of returning an aligned sequence.  Dates within one asset
are unique (the loader deduplicates, keeping the first occurrence). -/
def align_dates (first : List ℤ) (rest : List (List ℤ)) : Option (List ℤ) :=
  let common := (first.filter (fun d => rest.all (fun ds => ds.contains d))).mergeSort
  if common.isEmpty then none else some common

/-! ## Concrete run configurations used to evaluate the definitions -/

/-- A one-asset run, all capital invested on the first date
(`initial_investment_ratio = 1`, zero-year contribution window), constant
price 1, two common dates far apart, fixed threshold 5%: after the window
the holdings sit exactly on target, so no rebalance fires. -/
def exHold : Backtest 1 where
  weights := fun _ => 1
  initial_capital := 100
  initial_investment_ratio := 1
  regular_investment_years := 0
  rebalance_threshold := 1 / 20
  numDates := 2
  date := fun i => 1000 * (i : ℤ)
  price := fun _ _ => 1

/-- A one-asset run exhibiting the contribution accounting: capital 100,
20% invested initially, 2-year window, three common dates (days 0, 1, 2),
all inside the window, constant price 1. -/
def exShortfall : Backtest 1 where
  weights := fun _ => 1
  initial_capital := 100
  initial_investment_ratio := 1 / 5
  regular_investment_years := 2
  rebalance_threshold := 1 / 20
  numDates := 3
  date := fun i => (i : ℤ)
  price := fun _ _ => 1

/-! ## Theorems -/

section DecideRat

/- Batteries marks the rational operations `@[irreducible]`; concrete
evaluations below need them reducible again so `decide` can compute. -/
attribute [local semireducible] Rat.add Rat.mul Rat.inv Rat.sub Rat.ofScientific

/-- The band `|x - w| > w*R` rewritten as lying strictly outside
`[w*(1-R), w*(1+R)]`. -/
lemma relative_band_iff (w R x : ℚ) :
    w * R < |x - w| ↔ x < w * (1 - R) ∨ w * (1 + R) < x := by
  rw [lt_abs]
  constructor
  · rintro (h | h)
    · right; nlinarith
    · left; nlinarith
  · rintro (h | h)
    · right; nlinarith
    · left; nlinarith

/-- C2: for the fixed absolute threshold policy with threshold `T`, on any
holdings with positive total value, `check_rebalance_needed` returns
`false` exactly when every asset's deviation `|current_weight -
target_weight|` is at most `T`: a deviation equal to `T` does not trigger
(the comparison is strict `>`), and any asset with deviation strictly
above `T` makes it return `true`. -/
theorem check_fixed_no_trigger_iff {n : ℕ} (weights : Fin n → ℚ) (T : ℚ)
    (shares prices : Fin n → ℚ)
    (_htot : 0 < totalValue shares prices) :
    check_rebalance_needed weights T shares prices = false ↔
      ∀ a : Fin n, |currentWeight shares prices a - weights a| ≤ T := by
  unfold check_rebalance_needed
  rw [List.any_eq_false]
  constructor
  · intro h a
    have := h a (List.mem_finRange a)
    simpa [not_lt] using this
  · intro h a _
    simpa [not_lt] using h a

/-- Witness for C2, realizing the boundary case of the spec's end-to-end
scenario: two assets with targets 50/50, current weights 55%/45%,
threshold 5%: the deviation equals the threshold exactly and no rebalance
is triggered. -/
theorem check_fixed_no_trigger_iff_witness :
    check_rebalance_needed (fun a : Fin 2 => if a.val = 0 then (1 : ℚ)/2 else 1/2)
      (1/20) (fun a => if a.val = 0 then 550 else 450) (fun _ => 1) = false :=
  (check_fixed_no_trigger_iff (fun a : Fin 2 => if a.val = 0 then (1 : ℚ)/2 else 1/2)
    (1/20) (fun a => if a.val = 0 then 550 else 450) (fun _ => 1)
    (by decide)).mpr (by decide)

/-- C3: for the weight-relative threshold policy with ratio `R`, on any
holdings with positive total value, a rebalance is triggered exactly when
some asset's current weight lies strictly outside the band
`[w*(1-R), w*(1+R)]` around its target weight `w` (the per-asset absolute
threshold is `w*R`, compared with strict `>`). -/
theorem check_relative_trigger_iff {n : ℕ} (weights : Fin n → ℚ) (R : ℚ)
    (shares prices : Fin n → ℚ)
    (_htot : 0 < totalValue shares prices) :
    check_rebalance_needed_rel weights R shares prices = true ↔
      ∃ a : Fin n,
        currentWeight shares prices a < weights a * (1 - R) ∨
        weights a * (1 + R) < currentWeight shares prices a := by
  unfold check_rebalance_needed_rel
  rw [List.any_eq_true]
  constructor
  · rintro ⟨a, -, ha⟩
    exact ⟨a, (relative_band_iff _ _ _).mp (by simpa using ha)⟩
  · rintro ⟨a, ha⟩
    exact ⟨a, List.mem_finRange a, by
      simpa using (relative_band_iff (weights a) R
        (currentWeight shares prices a)).mpr ha⟩

/-- Witness for C3, realizing the spec's example: target weight 0.40 with
ratio 0.15 gives the band [0.34, 0.46]; a current weight of 0.47 (with the
other asset at 0.53 against target 0.60, inside its band [0.51, 0.69])
triggers. -/
theorem check_relative_trigger_iff_witness :
    check_rebalance_needed_rel (fun a : Fin 2 => if a.val = 0 then (2 : ℚ)/5 else 3/5)
      (3/20) (fun a => if a.val = 0 then 47 else 53) (fun _ => 1) = true :=
  (check_relative_trigger_iff (fun a : Fin 2 => if a.val = 0 then (2 : ℚ)/5 else 3/5)
    (3/20) (fun a => if a.val = 0 then 47 else 53) (fun _ => 1)
    (by decide)).mpr ⟨0, by decide⟩

/-- The accumulated total value coincides with the indexed sum. -/
theorem totalValue_eq_sum {n : ℕ} (shares prices : Fin n → ℚ) :
    totalValue shares prices = ∑ a, shares a * prices a := by
  simp [totalValue, List.sum_ofFn]

/-- One reallocated asset's market value: `new_shares[key] * price[key]`
recovers `total_value * weight[key]` whenever the price is non-zero. -/
lemma rebalance_asset_value {n : ℕ} (weights shares prices : Fin n → ℚ)
    (a : Fin n) (ha : prices a ≠ 0) :
    (rebalance_portfolio weights shares prices).1 a * prices a
      = totalValue shares prices * weights a := by
  simp only [rebalance_portfolio]
  exact div_mul_cancel₀ _ ha

/-- The post-rebalance total market value equals the pre-rebalance one,
given non-zero prices and target weights summing to 1. -/
lemma totalValue_rebalance {n : ℕ} (weights shares prices : Fin n → ℚ)
    (hp : ∀ a, prices a ≠ 0) (hw : ∑ a, weights a = 1) :
    totalValue (rebalance_portfolio weights shares prices).1 prices
      = totalValue shares prices := by
  rw [totalValue_eq_sum]
  calc ∑ a, (rebalance_portfolio weights shares prices).1 a * prices a
      = ∑ a, totalValue shares prices * weights a :=
        Finset.sum_congr rfl (fun a _ =>
          rebalance_asset_value weights shares prices a (hp a))
    _ = totalValue shares prices * ∑ a, weights a := by
        rw [Finset.mul_sum]
    _ = totalValue shares prices := by rw [hw, mul_one]

/-- C4: for every holdings and strictly positive prices with positive
pre-rebalance total value and target weights summing to 1, the shares
returned by `rebalance_portfolio` give every asset a recomputed weight
equal to its target weight exactly. -/
theorem rebalance_zero_deviation {n : ℕ} (weights shares prices : Fin n → ℚ)
    (hp : ∀ a, 0 < prices a) (hw : ∑ a, weights a = 1)
    (htot : 0 < totalValue shares prices) (a : Fin n) :
    currentWeight (rebalance_portfolio weights shares prices).1 prices a
      = weights a := by
  have hp' : ∀ b, prices b ≠ 0 := fun b => ne_of_gt (hp b)
  unfold currentWeight
  rw [rebalance_asset_value weights shares prices a (hp' a),
    totalValue_rebalance weights shares prices hp' hw,
    mul_comm, mul_div_assoc, div_self (ne_of_gt htot), mul_one]

/-- Witness for C4: two assets, targets 3/4 and 1/4, holdings 3 and 10
shares at prices 2 and 1 (total value 16, weights 3/8 and 5/8 before);
after `rebalance_portfolio` the recomputed weight of asset 0 is exactly
its target 3/4. -/
theorem rebalance_zero_deviation_witness :
    currentWeight
      (rebalance_portfolio (fun a : Fin 2 => if a.val = 0 then (3 : ℚ)/4 else 1/4)
        (fun a => if a.val = 0 then 3 else 10)
        (fun a => if a.val = 0 then 2 else 1)).1
      (fun a => if a.val = 0 then 2 else 1) 0
      = (fun a : Fin 2 => if a.val = 0 then (3 : ℚ)/4 else 1/4) 0 :=
  rebalance_zero_deviation (fun a : Fin 2 => if a.val = 0 then (3 : ℚ)/4 else 1/4)
    (fun a => if a.val = 0 then 3 else 10) (fun a => if a.val = 0 then 2 else 1)
    (by decide) (by decide) (by decide) 0

/-- C10: `rebalance_portfolio` conserves total portfolio value: with
strictly positive prices and target weights summing to 1, the sum of
`new_shares × price` over the assets equals the pre-rebalance total value
`Σ shares × price`, and the `total_value` it returns alongside the new
shares is exactly that pre-rebalance total. -/
theorem rebalance_conserves_value {n : ℕ} (weights shares prices : Fin n → ℚ)
    (hp : ∀ a, 0 < prices a) (hw : ∑ a, weights a = 1) :
    totalValue (rebalance_portfolio weights shares prices).1 prices
      = totalValue shares prices ∧
    (rebalance_portfolio weights shares prices).2 = totalValue shares prices :=
  ⟨totalValue_rebalance weights shares prices (fun a => ne_of_gt (hp a)) hw, rfl⟩

/-- Witness for C10 at the same concrete two-asset portfolio as the C4
witness: the reallocation keeps the total value 16. -/
theorem rebalance_conserves_value_witness :
    totalValue
      (rebalance_portfolio (fun a : Fin 2 => if a.val = 0 then (3 : ℚ)/4 else 1/4)
        (fun a => if a.val = 0 then 3 else 10)
        (fun a => if a.val = 0 then 2 else 1)).1
      (fun a => if a.val = 0 then 2 else 1)
      = totalValue (fun a : Fin 2 => if a.val = 0 then (3 : ℚ) else 10)
          (fun a => if a.val = 0 then 2 else 1) ∧
    (rebalance_portfolio (fun a : Fin 2 => if a.val = 0 then (3 : ℚ)/4 else 1/4)
        (fun a => if a.val = 0 then 3 else 10)
        (fun a => if a.val = 0 then 2 else 1)).2
      = totalValue (fun a : Fin 2 => if a.val = 0 then (3 : ℚ) else 10)
          (fun a => if a.val = 0 then 2 else 1) :=
  rebalance_conserves_value (fun a : Fin 2 => if a.val = 0 then (3 : ℚ)/4 else 1/4)
    (fun a => if a.val = 0 then 3 else 10) (fun a => if a.val = 0 then 2 else 1)
    (by decide) (by decide)

/-- C9: on every date strictly after the contribution window at which
`check_rebalance_needed` returns `false`, every asset's share count equals
its share count on the previous date: holdings carry forward unchanged,
and share counts change on a post-window date only when a rebalance is
triggered on that date. -/
theorem holding_carries_forward {n : ℕ} (b : Backtest n) (i : ℕ)
    (hdate : b.regular_invest_end < b.date (i + 1))
    (hcheck : check_rebalance_needed b.weights b.rebalance_threshold
      (b.shares i) (fun a => b.price a (i + 1)) = false) (a : Fin n) :
    b.shares (i + 1) a = b.shares i a := by
  show Backtest.shares b (i + 1) a = _
  rw [Backtest.shares]
  simp only [if_neg (not_le.mpr hdate), hcheck, Bool.false_eq_true, if_false]

/-- Witness for C9: in the all-initial-lump-sum run `exHold` the single
asset sits exactly on its target weight on the first post-window date, the
check returns `false`, and the holding is carried forward unchanged. -/
theorem holding_carries_forward_witness :
    Backtest.shares exHold 1 0 = Backtest.shares exHold 0 0 :=
  holding_carries_forward exHold 0 (by decide) (by decide) 0

/-- C1 evidence: in the concrete run `exShortfall` (capital 100, initial
fraction 1/5, so `remaining = 80`; three common dates, all inside the
2-year contribution window, so `len(regular_invest_dates) = 3` and
`daily_invest = 80/3`), the cumulative amount invested on the last date of
the window is `20 + 2×(80/3) = 220/3`: one `daily_invest` short of the
initial capital, because the divisor counts `dates[0]` although the loop
contributes only on the dates after it. -/
theorem cumulative_invest_shortfall :
    Backtest.regular_invest_count exShortfall = 3 ∧
    Backtest.daily_invest exShortfall = 80/3 ∧
    exShortfall.date 2 ≤ Backtest.regular_invest_end exShortfall ∧
    Backtest.cumulative_invest exShortfall 2 = 220/3 ∧
    Backtest.cumulative_invest exShortfall 2
      = exShortfall.initial_capital - Backtest.daily_invest exShortfall ∧
    Backtest.cumulative_invest exShortfall 2 ≠ exShortfall.initial_capital := by
  decide

/-- C5 evidence: on the strictly increasing value series `[100, 110, 121]`
the daily-returns sequence `pctChange` contains no negative observation;
the guarded Sortino computation of `calculate_sortino.calculate_all_metrics`
and `generate_html_report.calculate_metrics` returns the `+inf` sentinel,
but the unguarded one of `ETFBacktest40Nasdaq15pct.generate_report`
takes the standard deviation of the empty downside selection — NaN — and
returns NaN instead. -/
theorem sortino_guard_divergence :
    (pctChange [100, 110, 121]).filter (fun r => decide (r < 0)) = [] ∧
    sortino_guarded 10 (3/100) (pctChange [100, 110, 121]) = FloatRes.posInf ∧
    sortino_unguarded 10 (3/100) (pctChange [100, 110, 121]) = FloatRes.nan := by
  decide

/-- C6 evidence: a close price of 0 on the first aligned date does not
abort the run — `run_backtest` has no validation branch — but silently
turns the asset's share count into `+inf` (numpy float division emits only
a RuntimeWarning); a negative price likewise silently yields a negative
finite share count. -/
theorem zero_price_silent_inf :
    initialSharesF 200000 (1/4) 0 = FloatRes.posInf ∧
    initialSharesF 200000 (1/4) (-1) = FloatRes.fin (-50000) := by
  decide

lemma length_runningMaxFrom (m : ℚ) (vs : List ℚ) :
    (runningMaxFrom m vs).length = vs.length := by
  induction vs generalizing m with
  | nil => rfl
  | cons v vs ih => simp [runningMaxFrom, ih]

lemma length_runningMax (vs : List ℚ) : (runningMax vs).length = vs.length := by
  cases vs with
  | nil => rfl
  | cons v vs => simp [runningMax, length_runningMaxFrom]

lemma chain_runningMaxFrom (m : ℚ) (vs : List ℚ) :
    List.Chain (· ≤ ·) m (runningMaxFrom m vs) := by
  induction vs generalizing m with
  | nil => exact List.Chain.nil
  | cons v vs ih => exact List.Chain.cons (le_max_left m v) (ih (max m v))

lemma sorted_runningMax (vs : List ℚ) : (runningMax vs).Sorted (· ≤ ·) := by
  show List.Pairwise (· ≤ ·) (runningMax vs)
  rw [← List.chain'_iff_pairwise]
  cases vs with
  | nil => exact trivial
  | cons v vs => exact chain_runningMaxFrom v vs

/-- Zipped with its running maxima, every value is at most the maximum so
far, and (all values being positive) that maximum is positive. -/
lemma zip_runningMaxFrom (m : ℚ) (vs : List ℚ) (hm : 0 < m)
    (hpos : ∀ v ∈ vs, 0 < v) :
    ∀ p ∈ vs.zip (runningMaxFrom m vs), p.1 ≤ p.2 ∧ 0 < p.2 := by
  induction vs generalizing m with
  | nil => intro p hp; simp at hp
  | cons v vs ih =>
    intro p hp
    rw [runningMaxFrom, List.zip_cons_cons, List.mem_cons] at hp
    rcases hp with rfl | hp
    · exact ⟨le_max_right m v, lt_max_iff.mpr (Or.inl hm)⟩
    · exact ih (max m v) (lt_max_iff.mpr (Or.inl hm))
        (fun w hw => hpos w (List.mem_cons_of_mem v hw)) p hp

lemma zip_runningMax (vs : List ℚ) (hpos : ∀ v ∈ vs, 0 < v) :
    ∀ p ∈ vs.zip (runningMax vs), p.1 ≤ p.2 ∧ 0 < p.2 := by
  cases vs with
  | nil => intro p hp; simp at hp
  | cons v vs =>
    intro p hp
    rw [runningMax, List.zip_cons_cons, List.mem_cons] at hp
    have hv : 0 < v := hpos v (List.mem_cons_self v vs)
    rcases hp with rfl | hp
    · exact ⟨le_refl v, hv⟩
    · exact zip_runningMaxFrom v vs hv
        (fun w hw => hpos w (List.mem_cons_of_mem v hw)) p hp

lemma drawdown_nonpos (vs : List ℚ) (hpos : ∀ v ∈ vs, 0 < v) :
    ∀ d ∈ drawdownSeries vs, d ≤ 0 := by
  intro d hd
  rw [drawdownSeries, List.mem_map] at hd
  obtain ⟨p, hp, rfl⟩ := hd
  obtain ⟨h1, h2⟩ := zip_runningMax vs hpos p hp
  have hdiv : (p.1 - p.2) / p.2 ≤ 0 :=
    div_nonpos_iff.mpr (Or.inr ⟨sub_nonpos.mpr h1, h2.le⟩)
  linarith

lemma length_drawdownSeries (vs : List ℚ) :
    (drawdownSeries vs).length = vs.length := by
  simp [drawdownSeries, List.length_zip, length_runningMax]

/-- C7: for every non-empty, positive total-value series, the expanding
maximum is non-decreasing over time, every element of the drawdown series
`(value − running_max)/running_max × 100` is `≤ 0`, hence `max_drawdown`
(the minimum of that series) exists and is `≤ 0`, and the drawdown at a
date equals 0 exactly when that date's value equals the running maximum. -/
theorem drawdown_invariants (vs : List ℚ) (hne : vs ≠ [])
    (hpos : ∀ v ∈ vs, 0 < v) :
    (runningMax vs).Sorted (· ≤ ·) ∧
    (∀ d ∈ drawdownSeries vs, d ≤ 0) ∧
    (maxDrawdown vs ≠ none ∧ (maxDrawdown vs).getD 0 ≤ 0) ∧
    ∀ (i : ℕ) (h1 : i < (drawdownSeries vs).length) (h2 : i < vs.length)
      (h3 : i < (runningMax vs).length),
      ((drawdownSeries vs).get ⟨i, h1⟩ = 0 ↔
        vs.get ⟨i, h2⟩ = (runningMax vs).get ⟨i, h3⟩) := by
  refine ⟨sorted_runningMax vs, drawdown_nonpos vs hpos, ?_, ?_⟩
  · have hlen : 0 < (drawdownSeries vs).length := by
      rw [length_drawdownSeries]
      exact List.length_pos.mpr hne
    obtain ⟨m, hm⟩ : ∃ m, maxDrawdown vs = some m := by
      unfold maxDrawdown
      cases h : drawdownSeries vs with
      | nil => rw [h] at hlen; simp at hlen
      | cons d ds => exact ⟨_, rfl⟩
    have hmem : m ∈ drawdownSeries vs :=
      List.min?_mem (fun _ _ => min_choice _ _) hm
    have hle : m ≤ 0 := drawdown_nonpos vs hpos m hmem
    rw [hm]
    exact ⟨Option.some_ne_none m, hle⟩
  · intro i h1 h2 h3
    have hzip : i < (vs.zip (runningMax vs)).length := by
      rw [List.length_zip, length_runningMax]
      exact lt_min h2 (length_runningMax vs ▸ h3)
    have hget : (drawdownSeries vs).get ⟨i, h1⟩
        = (vs.get ⟨i, h2⟩ - (runningMax vs).get ⟨i, h3⟩)
          / (runningMax vs).get ⟨i, h3⟩ * 100 := by
      simp [drawdownSeries, List.getElem_map, List.getElem_zip]
    have hpr := zip_runningMax vs hpos ((vs.zip (runningMax vs)).get ⟨i, hzip⟩)
      (List.get_mem _ i hzip)
    rw [List.get_eq_getElem, List.getElem_zip] at hpr
    have hr : (0 : ℚ) < (runningMax vs).get ⟨i, h3⟩ := by
      simpa using hpr.2
    rw [hget]
    constructor
    · intro h0
      rcases mul_eq_zero.mp h0 with h0 | h0
      · rcases div_eq_zero_iff.mp h0 with h0 | h0
        · exact sub_eq_zero.mp h0
        · exact absurd h0 (ne_of_gt hr)
      · exact absurd h0 (by norm_num)
    · intro hv
      rw [hv, sub_self, zero_div, zero_mul]

/-- Witness for C7 on the series [100, 120, 90] (its drawdown series is
[0, 0, -25]): the maximum drawdown exists and is at most 0. -/
theorem drawdown_invariants_witness :
    maxDrawdown [100, 120, 90] ≠ none ∧
    (maxDrawdown [100, 120, 90]).getD 0 ≤ 0 :=
  (drawdown_invariants [100, 120, 90] (by decide) (by decide)).2.2.1

lemma lookupDate_isSome (series : List (ℤ × ℚ)) (d : ℤ)
    (h : d ∈ series.map Prod.fst) : (lookupDate series d).isSome := by
  induction series with
  | nil => simp at h
  | cons e es ih =>
    obtain ⟨d', p⟩ := e
    rw [lookupDate]
    by_cases he : d' = d
    · simp [he]
    · rw [if_neg he]
      rw [List.map_cons, List.mem_cons] at h
      rcases h with rfl | h
      · exact absurd rfl he
      · exact ih h

/-- Reindexing by a date sequence whose members all occur in the table
leaves the table indexed by exactly that sequence. -/
lemma keys_reindexTo (series : List (ℤ × ℚ)) (ds : List ℤ)
    (h : ∀ d ∈ ds, d ∈ series.map Prod.fst) :
    (reindexTo series ds).map Prod.fst = ds := by
  induction ds with
  | nil => rfl
  | cons d ds ih =>
    have hs := lookupDate_isSome series d (h d (List.mem_cons_self d ds))
    obtain ⟨p, hp⟩ := Option.isSome_iff_exists.mp hs
    rw [reindexTo, List.filterMap_cons, hp]
    rw [reindexTo] at ih
    simp only [Option.map_some', List.map_cons]
    exact congrArg (d :: ·) (ih (fun x hx => h x (List.mem_cons_of_mem d hx)))

/-- C8: `align_dates` returns the sorted intersection of all assets' date
sets — every element of the output is in every asset's date set, every
common date appears, in strictly ascending order — and every asset's table
reindexed by it is indexed by exactly that sequence; when the intersection
is empty the method instead fails (IndexError on `common_dates[0]`),
aborting the run. -/
theorem align_dates_spec (first : List ℤ) (rest : List (List ℤ))
    (hnd : first.Nodup) :
    (∀ l, align_dates first rest = some l →
       l.Sorted (· < ·) ∧
       (∀ d, d ∈ l ↔ d ∈ first ∧ ∀ ds ∈ rest, d ∈ ds) ∧
       ∀ series : List (ℤ × ℚ), (∀ d ∈ l, d ∈ series.map Prod.fst) →
         (reindexTo series l).map Prod.fst = l) ∧
    (align_dates first rest = none ↔
       ∀ d ∈ first, ¬ ∀ ds ∈ rest, d ∈ ds) := by
  unfold align_dates
  set common := (first.filter (fun d => rest.all (fun ds => ds.contains d))).mergeSort
    with hcommon
  constructor
  · intro l hl
    have hl' : common = l := by
      by_cases hemp : common.isEmpty
      · rw [if_pos hemp] at hl; exact absurd hl (by simp)
      · rw [if_neg hemp] at hl; exact Option.some_injective _ hl
    subst hl'
    refine ⟨?_, ?_, ?_⟩
    · exact (List.sorted_mergeSort' _).lt_of_le
        ((List.mergeSort_perm _ _).symm.nodup (hnd.filter _))
    · intro d
      rw [hcommon, (List.mergeSort_perm _ _).mem_iff, List.mem_filter]
      simp
    · intro series h
      exact keys_reindexTo series common h
  · have hiff : (if common.isEmpty then (none : Option (List ℤ)) else some common) = none
        ↔ common = [] := by
      by_cases hemp : common.isEmpty
      · simp [hemp, List.isEmpty_iff.mp hemp]
      · rw [if_neg hemp]
        constructor
        · intro h0
          exact absurd h0 (by simp)
        · intro h0
          rw [h0] at hemp
          exact absurd rfl hemp
    rw [hiff, hcommon]
    constructor
    · intro h d hd hall
      have : d ∈ (first.filter (fun d => rest.all (fun ds => ds.contains d))).mergeSort := by
        rw [(List.mergeSort_perm _ _).mem_iff, List.mem_filter]
        simpa using ⟨hd, hall⟩
      rw [h] at this
      simp at this
    · intro h
      have : first.filter (fun d => rest.all (fun ds => ds.contains d)) = [] := by
        rw [List.filter_eq_nil_iff]
        intro d hd
        simpa using h d hd
      rw [this, List.mergeSort_nil]

/-- Witness for C8 on a concrete empty intersection: the first asset
trades only on day 1, the second only on day 2, so `align_dates` fails
(returns no aligned sequence). -/
theorem align_dates_spec_witness :
    align_dates [1] [[2]] = none :=
  (align_dates_spec [1] [[2]] (by decide)).2.mpr (by decide)

end DecideRat

end InvestmentResearch
